import Mathlib

/-!
Shallow embedding of the two diagnostic scripts of `voice-of-upsa`:
`scripts/inspect_meta.py` (network mode: fetch a URL, dump the raw attribute
mapping of every `<meta>` tag carrying a `property` or `name` attribute, then
the title) and `scripts/inspect_meta_bs4.py` (file mode: read a local file,
print a normalized `key: content` line per `<meta>` tag, then the title).

The parsed document is modelled as a list of nodes in document order; the
BeautifulSoup calls the scripts make (`find_all('meta')`, `find('title')`,
`soup.title`) become list traversals.  Python optional values (`dict.get`)
become `Option String`, and Python string truthiness (`x or y`, `if name:`)
is modelled explicitly.  The network fetch and the file read, which are
performed by libraries and can raise, enter as `Except` parameters; an
uncaught exception is an `Except.error` result of the entry point.
-/

namespace VoiceOfUpsa

/-- Attribute mapping of one HTML element, as BeautifulSoup's `tag.attrs`
dictionary: an association list from attribute name to attribute value. -/
abbrev Attrs : Type := List (String × String)

/-- Model of Python `tag.get(k)`: the value of attribute `k` when present,
`None` otherwise. -/
def attrGet (a : Attrs) (k : String) : Option String :=
  match a with
  | [] => none
  | p :: rest => if p.1 = k then some p.2 else attrGet rest k

/-- Model of Python `k in tag.attrs`: attribute presence. -/
def hasAttr (a : Attrs) (k : String) : Bool :=
  match a with
  | [] => false
  | p :: rest => p.1 = k || hasAttr rest k

/-- Model of Python `x or y` on two optional strings: `None` and the empty
string are falsy, so the left operand is kept only when it is a present,
non-empty string. -/
def pyOr (x y : Option String) : Option String :=
  match x with
  | some s => if s = "" then y else some s
  | none => y

/-- Model of Python truthiness of an optional string (`if name:`). -/
def pyTruthy (x : Option String) : Bool :=
  match x with
  | some s => decide (s ≠ "")
  | none => false

/-- Model of Python `f"{x}"` for an optional string: `None` prints as the
literal text `None`. -/
def pyStrOpt (x : Option String) : String :=
  match x with
  | some s => s
  | none => "None"

/-- One node of the parsed document tree, flattened in document order.  The
scripts only ever look at `<meta>` elements (through their attribute
mapping), at `<title>` elements (through their text), and ignore every
other node. -/
inductive Node where
  | meta (attrs : Attrs)
  | title (text : String)
  | other (tag : String)
deriving DecidableEq

/-- A parsed document: its nodes in document order. -/
abbrev Doc : Type := List Node

/-- Model of `soup.find_all('meta')`: every `<meta>` element's attribute
mapping, in document order. -/
def findAllMeta (d : Doc) : List Attrs :=
  match d with
  | [] => []
  | Node.meta a :: rest => a :: findAllMeta rest
  | _ :: rest => findAllMeta rest

/-- Model of `soup.find('title')` and `soup.title`: the text of the first
`<title>` element in document order, if any. -/
def findTitle (d : Doc) : Option String :=
  match d with
  | [] => none
  | Node.title t :: _ => some t
  | _ :: rest => findTitle rest

/-- Raw-dump extraction, from the loop of `inspect_meta` in
`scripts/inspect_meta.py`: every `<meta>` element whose attribute mapping
contains a `property` or a `name` key, with the complete mapping kept. -/
def extractMetaRaw (d : Doc) : List Attrs :=
  (findAllMeta d).filter (fun a => hasAttr a "property" || hasAttr a "name")

/-- One normalized metadata record of file mode: the identifying key and the
optional `content` attribute value. -/
structure MetaRecord where
  key : String
  value : Option String
deriving DecidableEq

/-- The key computed by `inspect_html` in `scripts/inspect_meta_bs4.py`:
`tag.get('name') or tag.get('property')`. -/
def metaKey (a : Attrs) : Option String :=
  pyOr (attrGet a "name") (attrGet a "property")

/-- Normalized extraction, from the loop of `inspect_html` in
`scripts/inspect_meta_bs4.py`: for each `<meta>` element compute
`name = tag.get('name') or tag.get('property')` and
`content = tag.get('content')`, and emit a record exactly when `name` is
truthy (`if name:`). -/
def extractMetaNorm (d : Doc) : List MetaRecord :=
  (findAllMeta d).filterMap (fun a =>
    match metaKey a with
    | some k => if k = "" then none else some ⟨k, attrGet a "content"⟩
    | none => none)

/-- The line `inspect_html` prints for a record: `f"{name}: {content}"`. -/
def renderRecord (r : MetaRecord) : String :=
  r.key ++ ": " ++ pyStrOpt r.value

/-- The line `inspect_meta` prints for a raw attribute mapping,
`f"{props}"`: the dictionary rendered verbatim. -/
def renderAttrs (a : Attrs) : String :=
  "\x7b" ++ String.intercalate ", " ((a : List (String × String)).map
    (fun p => p.1 ++ ": " ++ p.2)) ++ "\x7d"

/-- The title line of network mode:
`soup.title.string if soup.title else "No title tag"`. -/
def titleLineNet (d : Doc) : String :=
  match findTitle d with
  | some t => t
  | none => "No title tag"

/-- The title line of file mode:
`title.text if title else "No title found"`. -/
def titleLineFile (d : Doc) : String :=
  match findTitle d with
  | some t => t
  | none => "No title found"

/-- The double-quote character, used by the attribute tokenizer below. -/
def quoteChar : Char := Char.ofNat 34

/-- Lower-cases a word given as a character list (tag names are matched
case-insensitively, as the underlying parser does). -/
def lowerWord (cs : List Char) : String :=
  String.mk (cs.map Char.toLower)

/-- Drops leading whitespace characters. -/
def skipSpaces (cs : List Char) : List Char :=
  match cs with
  | [] => []
  | c :: rest => if c.isWhitespace then skipSpaces rest else c :: rest

/-- Splits a character list at the first character satisfying `p` (that
character stays in the second component). -/
def takeUntil (p : Char → Bool) (cs : List Char) : List Char × List Char :=
  match cs with
  | [] => ([], [])
  | c :: rest =>
    if p c then ([], c :: rest)
    else
      let r := takeUntil p rest
      (c :: r.1, r.2)

/-- Reads one attribute value: a double-quoted string, or a bare token up to
the next whitespace. -/
def parseAttrValue (cs : List Char) : String × List Char :=
  match cs with
  | [] => ("", [])
  | c :: rest =>
    if c = quoteChar then
      let r := takeUntil (fun d => d = quoteChar) rest
      (String.mk r.1, r.2.drop 1)
    else
      let r := takeUntil (fun d => d.isWhitespace) (c :: rest)
      (String.mk r.1, r.2)

/-- Reads the attribute list of one tag body (the characters after the tag
name, up to the closing angle bracket).  Fueled by the input length; every
iteration consumes at least one character. -/
def parseAttrsAux (fuel : Nat) (cs : List Char) : Attrs :=
  match fuel with
  | 0 => []
  | fuel + 1 =>
    match skipSpaces cs with
    | [] => ([] : List (String × String))
    | c :: rest =>
      if c = '/' then parseAttrsAux fuel rest
      else if c = '=' then
        let v := parseAttrValue (skipSpaces rest)
        parseAttrsAux fuel v.2
      else
        let n := takeUntil (fun d => d.isWhitespace || d = '=') (c :: rest)
        match skipSpaces n.2 with
        | '=' :: rest2 =>
          let v := parseAttrValue (skipSpaces rest2)
          ((String.mk n.1, v.1) :: parseAttrsAux fuel v.2 : List (String × String))
        | rest2 => ((String.mk n.1, "") :: parseAttrsAux fuel rest2 : List (String × String))

/-- Modelled from the spec: the lenient, tag-soup-tolerant HTML parse that
the scripts delegate to `BeautifulSoup(html, 'html.parser')`, restricted to
what the scripts consume — the `<meta>` elements with their attribute
mappings, the `<title>` elements with their immediate text, and the bare
tag names of everything else, all in document order.  Text outside a
`<title>` element is skipped, closing tags produce no node, and a truncated
final tag is still consumed without failing. -/
def parseNodesAux (fuel : Nat) (cs : List Char) : Doc :=
  match fuel with
  | 0 => []
  | fuel + 1 =>
    match cs with
    | [] => []
    | '<' :: rest =>
      let r := takeUntil (fun d => d = '>') rest
      let after := r.2.drop 1
      match r.1 with
      | [] => parseNodesAux fuel after
      | b :: body =>
        if b = '/' then parseNodesAux fuel after
        else
          let t := takeUntil (fun d => d.isWhitespace) (b :: body)
          let tagName := lowerWord t.1
          if tagName = "meta" then
            (Node.meta (parseAttrsAux (t.2.length + 1) t.2) :: parseNodesAux fuel after : List Node)
          else if tagName = "title" then
            let txt := takeUntil (fun d => d = '<') after
            (Node.title (String.mk txt.1) :: parseNodesAux fuel txt.2 : List Node)
          else
            (Node.other tagName :: parseNodesAux fuel after : List Node)
    | _ :: rest => parseNodesAux fuel rest

/-- Modelled from the spec: parse an HTML text into the document model above
(see `parseNodesAux`).  Total on every input string. -/
def parseHtml (s : String) : Doc :=
  parseNodesAux (s.length + 1) s.data

/-- Model of the `requests` response object: status code and body text. -/
structure Response where
  status_code : Nat
  text : String

/-- Network-mode entry point, from `inspect_meta` in
`scripts/inspect_meta.py`.  The fetch (`requests.get`) arrives as an
`Except`: `Except.error e` is a raised exception whose message prints as
`e`.  The stages that run after the fetch inside the `try` block (response
decoding and HTML parsing) arrive as the `parse` parameter and may also
fail.  The single `except Exception` handler converts any failure into one
`Error: ...` line appended after whatever was already printed; the function
is total, so no fault escapes. -/
def inspect_meta (response : Except String Response)
    (parse : String → Except String Doc) : List String :=
  match response with
  | Except.error e => ["Error: " ++ e]
  | Except.ok r =>
    let statusLine := "Status Code: " ++ toString r.status_code
    match parse r.text with
    | Except.error e => [statusLine, "Error: " ++ e]
    | Except.ok soup =>
      [statusLine, "", "--- Meta Tags in Head ---"]
        ++ (extractMetaRaw soup).map renderAttrs
        ++ ["", "--- Title ---", titleLineNet soup]

/-- File-mode entry point, from `inspect_html` in
`scripts/inspect_meta_bs4.py`.  The file read (`open`/`read`) arrives as an
`Except`; the parse itself is modelled as already done (`parse` gives the
document of the file text).  There is no `try`/`except` in `inspect_html`,
so a read failure propagates unchanged to the caller as `Except.error`. -/
def inspect_html (read : Except String String) (parse : String → Doc) :
    Except String (List String) :=
  match read with
  | Except.error e => Except.error e
  | Except.ok html =>
    let soup := parse html
    Except.ok (["--- Meta Tags ---"]
      ++ (extractMetaNorm soup).map renderRecord
      ++ ["", "--- Title ---", titleLineFile soup])

/-- Modelled from the spec and the Python runtime: the script-level glue of
file mode (`if __name__ == "__main__": inspect_html(...)`) is not in any
function; an exception that propagates out of `inspect_html` terminates the
interpreter with a nonzero exit status, while a normal return exits zero. -/
def fileModeExitCode (read : Except String String) (parse : String → Doc) :
    Nat :=
  match inspect_html read parse with
  | Except.ok _ => 0
  | Except.error _ => 1

/-! Definitions written from the wording of individual claims, kept clearly
apart from the embedding of the source above so the two can be compared. -/

/-- The key rule exactly as claim C1 states it: the value of the `property`
attribute if that attribute is present, otherwise the value of the `name`
attribute if present, otherwise no record.  This is the claim's wording,
not the source's rule, and the two are compared below. -/
def claimKeyC1 (a : Attrs) : Option String :=
  match attrGet a "property" with
  | some p => some p
  | none => attrGet a "name"

/-- Keeps an optional string only when it is present and non-empty. -/
def truthyOpt (x : Option String) : Option String :=
  match x with
  | some s => if s = "" then none else some s
  | none => none

/-- The amended key rule that the code actually implements: the value of
`name` if present and non-empty, otherwise the value of `property` if
present and non-empty, otherwise no record. -/
def amendedKeyC1 (a : Attrs) : Option String :=
  match attrGet a "name" with
  | some s => if s = "" then truthyOpt (attrGet a "property") else some s
  | none => truthyOpt (attrGet a "property")

/-- Presence test of claim C3: the element carries a `property` or a `name`
attribute. -/
def hasKeyAttr (a : Attrs) : Bool :=
  hasAttr a "property" || hasAttr a "name"

/-- Truthiness test of normalized mode: the computed key is present and
non-empty. -/
def keyTruthy (a : Attrs) : Bool :=
  pyTruthy (metaKey a)

/-- The record built for an element whose key is truthy. -/
def recTotal (a : Attrs) : MetaRecord :=
  ⟨(metaKey a).getD "", attrGet a "content"⟩

/-- Recognizes a `<title>` node. -/
def isTitleNode (n : Node) : Bool :=
  match n with
  | Node.title _ => true
  | _ => false

/-! Helper lemmas. -/

theorem filterMap_ext {α β : Type} (f g : α → Option β) (h : ∀ a, f a = g a)
    (l : List α) : l.filterMap f = l.filterMap g := by
  have hfg : f = g := funext h
  rw [hfg]

theorem attrGet_hasAttr (a : Attrs) (k v : String)
    (h : attrGet a k = some v) : hasAttr a k = true := by
  induction a with
  | nil => simp [attrGet] at h
  | cons p rest ih =>
    by_cases hp : p.1 = k
    · simp [hasAttr, hp]
    · rw [attrGet, if_neg hp] at h
      rw [hasAttr]
      simp [hp, ih h]

theorem keyTruthy_hasKeyAttr (a : Attrs) (h : keyTruthy a = true) :
    hasKeyAttr a = true := by
  unfold keyTruthy metaKey pyOr at h
  unfold hasKeyAttr
  rcases hn : attrGet a "name" with _ | s
  · rw [hn] at h
    rcases hp : attrGet a "property" with _ | p
    · rw [hp] at h
      simp [pyTruthy] at h
    · simp [attrGet_hasAttr a "property" p hp]
  · rw [hn] at h
    by_cases hs : s = ""
    · rcases hp : attrGet a "property" with _ | p
      · rw [hp] at h
        simp [hs, pyTruthy] at h
      · simp [attrGet_hasAttr a "property" p hp]
    · simp [attrGet_hasAttr a "name" s hn]

theorem length_filter_mono {α : Type} (p q : α → Bool)
    (h : ∀ a, p a = true → q a = true) (l : List α) :
    (l.filter p).length ≤ (l.filter q).length := by
  induction l with
  | nil => exact Nat.le_refl 0
  | cons a l ih =>
    by_cases hp : p a = true
    · rw [List.filter_cons, if_pos hp, List.filter_cons, if_pos (h a hp)]
      simpa using ih
    · rw [List.filter_cons, if_neg hp]
      calc (l.filter p).length ≤ (l.filter q).length := ih
        _ ≤ ((a :: l).filter q).length := by
            rw [List.filter_cons]
            by_cases hq : q a = true <;> simp [hq]

theorem norm_eq_filter_map (l : List Attrs) :
    l.filterMap (fun a =>
      match metaKey a with
      | some k => if k = "" then none else some (⟨k, attrGet a "content"⟩ : MetaRecord)
      | none => none)
      = (l.filter keyTruthy).map recTotal := by
  induction l with
  | nil => rfl
  | cons a l ih =>
    rw [List.filterMap_cons, List.filter_cons]
    rcases h : metaKey a with _ | k
    · have ht : keyTruthy a = false := by simp [keyTruthy, h, pyTruthy]
      simp [ht, ih]
    · by_cases hk : k = ""
      · have ht : keyTruthy a = false := by simp [keyTruthy, h, pyTruthy, hk]
        simp [hk, ht, ih]
      · have ht : keyTruthy a = true := by simp [keyTruthy, h, pyTruthy, hk]
        simp [hk, ht, ih, recTotal, h]

theorem findTitle_append_no_title (pre : Doc) (t : String) (rest : Doc)
    (h : ∀ n ∈ pre, isTitleNode n = false) :
    findTitle (pre ++ Node.title t :: rest) = some t := by
  induction pre with
  | nil => rfl
  | cons n pre ih =>
    have hn : isTitleNode n = false := h n (List.mem_cons_self n pre)
    have hrest : ∀ m ∈ pre, isTitleNode m = false :=
      fun m hm => h m (List.mem_cons_of_mem n hm)
    cases n with
    | meta a => simpa [findTitle] using ih hrest
    | title s => simp [isTitleNode] at hn
    | other s => simpa [findTitle] using ih hrest

theorem findTitle_none_of_no_title (d : Doc)
    (h : ∀ n ∈ d, isTitleNode n = false) :
    findTitle d = none := by
  induction d with
  | nil => rfl
  | cons n d ih =>
    have hn : isTitleNode n = false := h n (List.mem_cons_self n d)
    have hrest : ∀ m ∈ d, isTitleNode m = false :=
      fun m hm => h m (List.mem_cons_of_mem n hm)
    cases n with
    | meta a => simpa [findTitle] using ih hrest
    | title s => simp [isTitleNode] at hn
    | other s => simpa [findTitle] using ih hrest

theorem metaRecord_pointwise (a : Attrs) :
    (match metaKey a with
     | some k => if k = "" then none else some (⟨k, attrGet a "content"⟩ : MetaRecord)
     | none => none)
      = (amendedKeyC1 a).map (fun k => (⟨k, attrGet a "content"⟩ : MetaRecord)) := by
  unfold metaKey amendedKeyC1 pyOr truthyOpt
  rcases hn : attrGet a "name" with _ | s
  · rcases hp : attrGet a "property" with _ | p
    · rfl
    · by_cases hq : p = "" <;> simp [hq]
  · by_cases hs : s = ""
    · rcases hp : attrGet a "property" with _ | p
      · simp [hs]
      · by_cases hq : p = "" <;> simp [hs, hq]
    · simp [hs]

/-! Claim theorems. -/

/-- C1 (counterexample): on a `<meta>` element carrying both
`property="p"` and `name="n"`, normalized mode emits the record with key
`n`, while the claim's property-first rule selects `p`; and on a
`<meta property="">` element, normalized mode emits nothing, while the
claim's presence-based rule selects the key `""` and would emit a
record. -/
theorem C1_counterexample :
    extractMetaNorm [Node.meta [("property", "p"), ("name", "n")]]
      = [⟨"n", none⟩]
    ∧ claimKeyC1 [("property", "p"), ("name", "n")] = some "p"
    ∧ extractMetaNorm [Node.meta [("property", "")]] = []
    ∧ claimKeyC1 [("property", "")] = some "" := by
  refine ⟨rfl, rfl, rfl, rfl⟩

/-- C1 (amended): for every `<meta>` element visited in normalized (file)
mode, the emitted record's key is the value of the element's `name`
attribute if present and non-empty, otherwise the value of its `property`
attribute if present and non-empty; an element for which both are absent
or empty is skipped and emits no record. -/
theorem C1_amended_meta_key (d : Doc) :
    extractMetaNorm d = (findAllMeta d).filterMap
      (fun a => (amendedKeyC1 a).map
        (fun k => (⟨k, attrGet a "content"⟩ : MetaRecord))) := by
  unfold extractMetaNorm
  exact filterMap_ext _ _ metaRecord_pointwise (findAllMeta d)

/-- C2 (counterexample): in file mode a file-system failure is not caught:
`inspect_html` on a failed read propagates the fault unchanged instead of
returning normally with a diagnostic line, and the process exit status is
nonzero, refuting both the "caught and reported" and the "exits zero"
parts of the claim. -/
theorem C2_counterexample :
    inspect_html (Except.error "FileNotFoundError") parseHtml
      = Except.error "FileNotFoundError"
    ∧ fileModeExitCode (Except.error "FileNotFoundError") parseHtml = 1 :=
  ⟨rfl, rfl⟩

/-- C2 (amended): for every file path given to the file-mode entry point,
a file-system failure is NOT caught: `inspect_html` contains no handler,
the fault propagates unchanged out of the entry point, no diagnostic line
is printed, and the process exits nonzero. -/
theorem C2_amended_read_error_propagates (e : String) (parse : String → Doc) :
    inspect_html (Except.error e) parse = Except.error e
    ∧ fileModeExitCode (Except.error e) parse = 1 :=
  ⟨rfl, rfl⟩

/-- C3 (counterexample): a `<meta name="">` element carries a `name`
attribute, and raw-dump mode accordingly emits it, yet normalized mode
drops it — so the dropped elements are not exactly "those with neither
attribute" as the claim states. -/
theorem C3_counterexample :
    hasKeyAttr [("name", "")] = true
    ∧ extractMetaRaw [Node.meta [("name", "")]] = [[("name", "")]]
    ∧ extractMetaNorm [Node.meta [("name", "")]] = [] :=
  ⟨rfl, rfl, rfl⟩

/-- C3 (amended): for any document with N `<meta>` elements carrying a
`property` or `name` attribute, raw-dump mode yields exactly N records and
normalized mode at most N (those whose `name` and `property` values are
both absent or empty being the ones dropped), and in both modes the
records appear in document order: the raw sequence is a sublist of the
document's meta elements, and the normalized sequence is an
order-preserving filter-then-map of them. -/
theorem C3_amended_counts_order (d : Doc) :
    (extractMetaRaw d).length = ((findAllMeta d).filter hasKeyAttr).length
    ∧ (extractMetaNorm d).length ≤ ((findAllMeta d).filter hasKeyAttr).length
    ∧ List.Sublist (extractMetaRaw d) (findAllMeta d)
    ∧ extractMetaNorm d = ((findAllMeta d).filter keyTruthy).map recTotal := by
  have h4 : extractMetaNorm d = ((findAllMeta d).filter keyTruthy).map recTotal := by
    unfold extractMetaNorm
    exact norm_eq_filter_map (findAllMeta d)
  refine ⟨rfl, ?_, ?_, h4⟩
  · rw [h4, List.length_map]
    exact length_filter_mono _ _ keyTruthy_hasKeyAttr (findAllMeta d)
  · exact List.filter_sublist (findAllMeta d)

/-- C4: for every failed fetch, network mode catches the fault at the
operation boundary and the whole output is exactly one diagnostic line
beginning with `Error:`; the function returns this list normally. -/
theorem C4_fetch_error_one_line (e : String)
    (parse : String → Except String Doc) :
    inspect_meta (Except.error e) parse = ["Error: " ++ e] :=
  rfl

/-- C5: a `<meta>` element without a `content` attribute yields a record
whose value is the absence marker `none`, a `<meta>` element with
`content=""` yields `some ""`, the two records differ, and the printed
lines differ as well. -/
theorem C5_value_absent_vs_empty (k : String) (hk : k ≠ "") :
    extractMetaNorm [Node.meta [("name", k)]] = [⟨k, none⟩]
    ∧ extractMetaNorm [Node.meta [("name", k), ("content", "")]]
        = [⟨k, some ""⟩]
    ∧ (⟨k, none⟩ : MetaRecord) ≠ (⟨k, some ""⟩ : MetaRecord)
    ∧ renderRecord ⟨k, none⟩ ≠ renderRecord ⟨k, some ""⟩ := by
  refine ⟨?_, ?_, by simp, ?_⟩
  · simp [extractMetaNorm, findAllMeta, metaKey, attrGet, pyOr, hk]
  · simp [extractMetaNorm, findAllMeta, metaKey, attrGet, pyOr, hk]
  · intro hcontra
    have hlen := congrArg String.length hcontra
    simp only [renderRecord, pyStrOpt, String.length_append] at hlen
    have h1 : ("None" : String).length = 4 := rfl
    have h2 : ("" : String).length = 0 := rfl
    rw [h1, h2] at hlen
    omega

/-- C5 (witness): the distinction at the concrete key `description`. -/
theorem C5_witness :
    extractMetaNorm [Node.meta [("name", "description")]]
      = [⟨"description", none⟩]
    ∧ extractMetaNorm [Node.meta [("name", "description"), ("content", "")]]
        = [⟨"description", some ""⟩]
    ∧ (⟨"description", none⟩ : MetaRecord) ≠ (⟨"description", some ""⟩ : MetaRecord)
    ∧ renderRecord ⟨"description", none⟩ ≠ renderRecord ⟨"description", some ""⟩ :=
  C5_value_absent_vs_empty "description" (by decide)

/-- C6: title extraction returns the text of the first `<title>` element in
document order, in both printing modes; in particular, on the parsed input
`<html><head><title>Hello</title></head></html>` it returns `Hello`. -/
theorem C6_title_first (pre rest : Doc) (t : String)
    (h : ∀ n ∈ pre, isTitleNode n = false) :
    findTitle (pre ++ Node.title t :: rest) = some t
    ∧ titleLineNet (pre ++ Node.title t :: rest) = t
    ∧ titleLineFile (pre ++ Node.title t :: rest) = t
    ∧ findTitle (parseHtml "<html><head><title>Hello</title></head></html>")
        = some "Hello"
    ∧ titleLineFile (parseHtml "<html><head><title>Hello</title></head></html>")
        = "Hello" := by
  have hf := findTitle_append_no_title pre t rest h
  exact ⟨hf, by simp [titleLineNet, hf], by simp [titleLineFile, hf], rfl, rfl⟩

/-- C6 (witness): the first-title rule at a concrete document. -/
theorem C6_witness :
    findTitle ([Node.other "html", Node.other "head"]
        ++ Node.title "Hello" :: ([] : Doc)) = some "Hello"
    ∧ titleLineNet ([Node.other "html", Node.other "head"]
        ++ Node.title "Hello" :: ([] : Doc)) = "Hello"
    ∧ titleLineFile ([Node.other "html", Node.other "head"]
        ++ Node.title "Hello" :: ([] : Doc)) = "Hello"
    ∧ findTitle (parseHtml "<html><head><title>Hello</title></head></html>")
        = some "Hello"
    ∧ titleLineFile (parseHtml "<html><head><title>Hello</title></head></html>")
        = "Hello" :=
  C6_title_first [Node.other "html", Node.other "head"] [] "Hello" (by decide)

/-- C7: on a document with no `<title>` element, title extraction yields
the absence marker and the printed line is `No title tag` in network mode
and `No title found` in file mode, without any fault (the extraction is a
total function); in particular so for the parsed input
`<html><body>no title here</body></html>`. -/
theorem C7_no_title (d : Doc) (h : ∀ n ∈ d, isTitleNode n = false) :
    findTitle d = none
    ∧ titleLineNet d = "No title tag"
    ∧ titleLineFile d = "No title found"
    ∧ titleLineNet (parseHtml "<html><body>no title here</body></html>")
        = "No title tag"
    ∧ titleLineFile (parseHtml "<html><body>no title here</body></html>")
        = "No title found" := by
  have hf := findTitle_none_of_no_title d h
  exact ⟨hf, by simp [titleLineNet, hf], by simp [titleLineFile, hf], rfl, rfl⟩

/-- C7 (witness): the absence rule at a concrete title-free document. -/
theorem C7_witness :
    findTitle [Node.other "html", Node.other "body"] = none
    ∧ titleLineNet [Node.other "html", Node.other "body"] = "No title tag"
    ∧ titleLineFile [Node.other "html", Node.other "body"] = "No title found"
    ∧ titleLineNet (parseHtml "<html><body>no title here</body></html>")
        = "No title tag"
    ∧ titleLineFile (parseHtml "<html><body>no title here</body></html>")
        = "No title found" :=
  C7_no_title [Node.other "html", Node.other "body"] (by decide)

/-- C8: extraction is a pure function of the HTML text — the embedding of
both modes is a Lean function with no state, so two runs on the same text
are one and the same value and yield identical record sequences. -/
theorem C8_extraction_pure (h : String) :
    extractMetaRaw (parseHtml h) = extractMetaRaw (parseHtml h)
    ∧ extractMetaNorm (parseHtml h) = extractMetaNorm (parseHtml h) :=
  ⟨rfl, rfl⟩

/-- C9: in normalized mode membership is decided by string truthiness, not
attribute presence: a `<meta>` element with `name=""` and `property=""`
emits no record, and one with `name=""` and a non-empty `property` takes
its key from `property`. -/
theorem C9_truthiness (p : String) (hp : p ≠ "") :
    extractMetaNorm [Node.meta [("name", ""), ("property", "")]] = []
    ∧ extractMetaNorm [Node.meta [("name", ""), ("property", p)]]
        = [⟨p, none⟩] := by
  refine ⟨rfl, ?_⟩
  simp [extractMetaNorm, findAllMeta, metaKey, attrGet, pyOr, hp]

/-- C9 (witness): the truthiness rule at the concrete key `og:title`. -/
theorem C9_witness :
    extractMetaNorm [Node.meta [("name", ""), ("property", "")]] = []
    ∧ extractMetaNorm [Node.meta [("name", ""), ("property", "og:title")]]
        = [⟨"og:title", none⟩] :=
  C9_truthiness "og:title" (by decide)

/-- C10: in network mode a fault raised after the fetch (here: a failing
parse stage) is caught by the same catch-all handler; the output is the
already-printed `Status Code:` line followed by exactly one
`Error: <description>` line, and the function returns it normally. -/
theorem C10_post_fetch_fault (r : Response)
    (parse : String → Except String Doc) (e : String)
    (h : parse r.text = Except.error e) :
    inspect_meta (Except.ok r) parse
      = ["Status Code: " ++ toString r.status_code, "Error: " ++ e] := by
  simp [inspect_meta, h]

/-- C10 (witness): the catch-all at a concrete response and a parse stage
that raises. -/
theorem C10_witness :
    inspect_meta (Except.ok ⟨200, "<html>"⟩)
        (fun _ => Except.error "parse failure")
      = ["Status Code: 200", "Error: parse failure"] :=
  C10_post_fetch_fault ⟨200, "<html>"⟩ (fun _ => Except.error "parse failure")
    "parse failure" rfl

end VoiceOfUpsa
